import Mathlib

/-!
Verification of the AyurGraph frontend's knowledge-graph visualization and
response-formatting logic (frontend/src/App.jsx, two iterations: the older
iteration called v0 below, and the current iteration).

The JavaScript source is shallowly embedded: object fields that may be
absent (or hold a JS falsy value) become Option String; JS truthiness,
the or-default idiom (x || d) and Map get/set are modelled by jsTruthy,
jsOr and mapGet; the template-literal fresh ids
node_${index}_${Date.now()}_${Math.random()} become freshNodeId, with the
nondeterministic ${Date.now()}_${Math.random()} part abstracted as a
nonce : Nat → String parameter (one nonce value per array index).
Constant presentation fields (colors, physics options, arrow styling) are
omitted: they carry no ids and take no part in filtering.
-/
/-- JS truthiness of a possibly-absent string field: undefined/null and
the empty string are falsy, every other string is truthy. -/
def jsTruthy : Option String → Bool
  | none => false
  | some s => !(s == "")

/-- The JS idiom v || d for a possibly-absent string v: yields d when v is
absent or falsy (empty), otherwise the string itself. -/
def jsOr (v : Option String) (d : String) : String :=
  match v with
  | none => d
  | some s => if s == "" then d else s

/-- Lookup in a JS Map built by repeated set calls, represented as the
insertion-ordered list of (key, value) pairs: a later set for the same key
overwrites an earlier one, so lookup prefers the later pairs. -/
def mapGet (pairs : List (String × String)) (k : String) : Option String :=
  match pairs with
  | [] => none
  | (a, b) :: rest =>
    match mapGet rest k with
    | some v => some v
    | none => if a == k then some b else none

/-! Decimal rendering.  The JS template literal stringifies the node index
in decimal; the embedding uses Nat.repr for this.  The lemmas below prove
what the fresh-id arguments need: Nat.repr is injective and never contains
an underscore. -/
/-- Reference decimal rendering of a natural number, structurally the
most-significant-digits-first unfolding of Nat.repr. -/
def digitsRep (n : Nat) : List Char :=
  if n < 10 then [Nat.digitChar n]
  else digitsRep (n / 10) ++ [Nat.digitChar (n % 10)]
decreasing_by exact Nat.div_lt_self (by omega) (by omega)

/-- Value of a most-significant-first decimal digit list. -/
def digitsVal (l : List Char) : Nat :=
  l.foldl (fun a c => 10 * a + (c.toNat - 48)) 0

/-- Fresh render id for a node at a given array index, from the template
literal node_${index}_${Date.now()}_${Math.random()}; the part after the
index is the abstract nonce. -/
def freshNodeId (nonce : Nat → String) (i : Nat) : String :=
  "node_" ++ Nat.repr i ++ "_" ++ nonce i

/-- Fresh render id for an edge at a given array index, from the template
literal edge_${index}_${Date.now()}_${Math.random()}. -/
def freshEdgeId (nonce : Nat → String) (i : Nat) : String :=
  "edge_" ++ Nat.repr i ++ "_" ++ nonce i

/-! Data model of the payloads the frontend receives: graph nodes and
edges as sent by the server, and the processed render forms. -/
/-- A node of a { nodes, edges } payload as received from the server. -/
structure InNode where
  id : String
  label : Option String
  group : Option String
deriving DecidableEq, Repr

/-- A node after id remapping (spread of the input node with the id field
overwritten by the fresh render id). -/
structure RenderNode where
  id : String
  label : Option String
  group : Option String
deriving DecidableEq, Repr

/-- A node as styled by the graph-rendering effect of the current
iteration: the id-remapped node plus the size hint (the constant font
styling is omitted). -/
structure StyledNode where
  id : String
  label : Option String
  group : Option String
  size : Nat
deriving DecidableEq, Repr

/-- An edge of a payload as received from the server; from and to may be
absent or empty (JS falsy). -/
structure InEdge where
  «from» : Option String
  «to» : Option String
  label : Option String
deriving DecidableEq, Repr

/-- An edge after filtering and endpoint remapping (spread of the input
edge with a fresh id field and remapped endpoints; constant arrow/color
styling of the rendering effect is omitted). -/
structure OutEdge where
  id : String
  «from» : Option String
  «to» : Option String
  label : Option String
deriving DecidableEq, Repr

/-- An entity of kg_data as consumed by formatResults: label, type and
details.description (a possibly-absent array of strings). -/
structure Entity where
  id : String
  label : String
  type : String
  description : Option (List String)
deriving DecidableEq, Repr

/-- One relationship summary item: { fromLabel, toLabel, relation }. -/
structure RelItem where
  fromLabel : String
  toLabel : String
  relation : String
deriving DecidableEq, Repr

/-- The visualization member of kg_data (nodes or edges may be missing or
not arrays, modelled as none). -/
structure Viz where
  nodes : Option (List InNode)
  edges : Option (List InEdge)
deriving DecidableEq, Repr

/-- kg_data of a chat response: entities, relationships (a JS object in
insertion order, modelled as an association list) and visualization. -/
structure KgData where
  entities : Option (List Entity)
  relationships : Option (List (String × List RelItem))
  visualization : Option Viz
deriving DecidableEq, Repr

/-- A chat response received by the client. -/
structure ChatData where
  error : Option String
  detail : Option String
  response : Option String
  confidence : String
  kg_data : Option KgData
deriving DecidableEq, Repr

/-! The per-query visualization path: showQueryGraph of the current
iteration (App.jsx lines 416-517).  Nodes are remapped to fresh ids while
an original-id to fresh-id Map is built; edges are filtered (falsy or
equal endpoints) and their endpoints remapped through the Map, falling
back to the original id when the Map has no entry. -/
/-- The entries inserted into nodeIdMap by showQueryGraph's nodes.map
callback, in insertion order, starting at a given index. -/
def showQueryGraph_nodeIdPairs (nonce : Nat → String) : Nat → List InNode → List (String × String)
  | _, [] => []
  | i, n :: ns => (n.id, freshNodeId nonce i) :: showQueryGraph_nodeIdPairs nonce (i + 1) ns

/-- showQueryGraph's processedNodes: each node spread with its id replaced
by the fresh render id. -/
def showQueryGraph_processedNodes (nonce : Nat → String) : Nat → List InNode → List RenderNode
  | _, [] => []
  | i, n :: ns =>
    { id := freshNodeId nonce i, label := n.label, group := n.group } ::
      showQueryGraph_processedNodes nonce (i + 1) ns

/-- showQueryGraph's edge filter callback: isValid is truthiness of both
endpoints and their difference; an invalid edge is logged and rejected. -/
def showQueryGraph_edgeFilter (e : InEdge) : Bool :=
  let isValid := jsTruthy e.«from» && jsTruthy e.«to» && !(e.«from» == e.«to»)
  if !isValid then false else true

/-- showQueryGraph's edge map callback applied along a filtered list: the
edge spread with a fresh edge id and endpoints remapped by
nodeIdMap.get(x) || x. -/
def showQueryGraph_remapEdges (m : String → Option String) (nonceE : Nat → String) :
    Nat → List InEdge → List OutEdge
  | _, [] => []
  | i, e :: es =>
    { id := freshEdgeId nonceE i,
      «from» := match e.«from» with
        | none => none
        | some s => some (jsOr (m s) s),
      «to» := match e.«to» with
        | none => none
        | some s => some (jsOr (m s) s),
      label := e.label } :: showQueryGraph_remapEdges m nonceE (i + 1) es

/-- Outcome of showQueryGraph: one of its three early-return error
messages, or the graph data it stores for rendering, together with the
all-edges-filtered warning flag. -/
inductive ShowQueryGraphResult where
  | errNoVisualization
  | errInvalidStructure
  | errNoNodes
  | success (allFilteredWarning : Bool) (nodes : List RenderNode) (edges : List OutEdge)
deriving DecidableEq, Repr

/-- showQueryGraph (current iteration): validates kgData.visualization,
remaps node ids, filters and remaps edges, emits the nodes-only warning
when a nonempty edge list filters to nothing, and stores the processed
graph. -/
def showQueryGraph (nonceN nonceE : Nat → String) (kgData : Option KgData) :
    ShowQueryGraphResult :=
  match kgData with
  | none => .errNoVisualization
  | some kd =>
    match kd.visualization with
    | none => .errNoVisualization
    | some viz =>
      match viz.nodes with
      | none => .errInvalidStructure
      | some nodes =>
        if nodes.length = 0 then .errNoNodes
        else
          let pairs := showQueryGraph_nodeIdPairs nonceN 0 nodes
          let inEdges := viz.edges.getD []
          let validEdges := showQueryGraph_remapEdges (mapGet pairs) nonceE 0
            (inEdges.filter showQueryGraph_edgeFilter)
          .success (decide (0 < inEdges.length) && decide (validEdges.length = 0))
            (showQueryGraph_processedNodes nonceN 0 nodes) validEdges

/-! The full-graph fetch path: fetchFullKG of the current iteration
(App.jsx lines 231-298). -/
/-- The response of GET /api/kg/full as the client sees it. -/
structure FullKgData where
  error : Option String
  nodes : Option (List InNode)
  edges : Option (List InEdge)
deriving DecidableEq, Repr

/-- fetchFullKG's nodeIdMap entries, in insertion order. -/
def fetchFullKG_nodeIdPairs (nonce : Nat → String) : Nat → List InNode → List (String × String)
  | _, [] => []
  | i, n :: ns => (n.id, freshNodeId nonce i) :: fetchFullKG_nodeIdPairs nonce (i + 1) ns

/-- fetchFullKG's processedNodes: each node spread with a fresh id. -/
def fetchFullKG_processedNodes (nonce : Nat → String) : Nat → List InNode → List RenderNode
  | _, [] => []
  | i, n :: ns =>
    { id := freshNodeId nonce i, label := n.label, group := n.group } ::
      fetchFullKG_processedNodes nonce (i + 1) ns

/-- fetchFullKG's edge filter callback: computes isValid, logs when it is
false, and returns it. -/
def fetchFullKG_edgeFilter (e : InEdge) : Bool :=
  let isValid := jsTruthy e.«from» && jsTruthy e.«to» && !(e.«from» == e.«to»)
  isValid

/-- fetchFullKG's edge map callback applied along a filtered list. -/
def fetchFullKG_processedEdges (m : String → Option String) (nonceE : Nat → String) :
    Nat → List InEdge → List OutEdge
  | _, [] => []
  | i, e :: es =>
    { id := freshEdgeId nonceE i,
      «from» := match e.«from» with
        | none => none
        | some s => some (jsOr (m s) s),
      «to» := match e.«to» with
        | none => none
        | some s => some (jsOr (m s) s),
      label := e.label } :: fetchFullKG_processedEdges m nonceE (i + 1) es

/-- fetchFullKG (current iteration): the processing applied to a 200
response body, as an Except whose error is the thrown message. -/
def fetchFullKG (nonceN nonceE : Nat → String) (data : FullKgData) :
    Except String (List RenderNode × List OutEdge) :=
  if jsTruthy data.error then .error (jsOr data.error "")
  else
    match data.nodes with
    | none =>
      .error "Invalid knowledge graph data structure from server: nodes missing or not an array"
    | some nodes =>
      if nodes.length = 0 then .error "Received empty knowledge graph nodes"
      else
        let pairs := fetchFullKG_nodeIdPairs nonceN 0 nodes
        .ok (fetchFullKG_processedNodes nonceN 0 nodes,
          fetchFullKG_processedEdges (mapGet pairs) nonceE 0
            ((data.edges.getD []).filter fetchFullKG_edgeFilter))

/-! The graph-rendering effect of the current iteration (App.jsx lines
42-229): re-validates and re-processes currentGraphData before handing it
to the vis-network renderer. -/
/-- The node size hint computed by the rendering effect's processedNodes
callback: node.group === 'herbs' ? 25 : 20. -/
def nodeRenderSize (group : Option String) : Nat :=
  if group == some "herbs" then 25 else 20

/-- The rendering effect's nodeIdMap entries, in insertion order. -/
def renderEffect_nodeIdPairs (nonce : Nat → String) : Nat → List InNode → List (String × String)
  | _, [] => []
  | i, n :: ns => (n.id, freshNodeId nonce i) :: renderEffect_nodeIdPairs nonce (i + 1) ns

/-- The rendering effect's processedNodes: node spread with fresh id plus
size hint (constant font styling omitted). -/
def renderEffect_processedNodes (nonce : Nat → String) : Nat → List InNode → List StyledNode
  | _, [] => []
  | i, n :: ns =>
    { id := freshNodeId nonce i, label := n.label, group := n.group,
      size := nodeRenderSize n.group } ::
      renderEffect_processedNodes nonce (i + 1) ns

/-- The rendering effect's edge filter callback: rejects an edge with a
falsy endpoint, then rejects (with a self-loop warning message) an edge
whose endpoints are equal, and keeps the rest. -/
def renderEffect_edgeFilter (e : InEdge) : Bool :=
  if !(jsTruthy e.«from» && jsTruthy e.«to») then false
  else if e.«from» == e.«to» then false
  else true

/-- The rendering effect's edge map callback applied along a filtered
list (constant arrow/color/font styling omitted). -/
def renderEffect_processedEdges (m : String → Option String) (nonceE : Nat → String) :
    Nat → List InEdge → List OutEdge
  | _, [] => []
  | i, e :: es =>
    { id := freshEdgeId nonceE i,
      «from» := match e.«from» with
        | none => none
        | some s => some (jsOr (m s) s),
      «to» := match e.«to» with
        | none => none
        | some s => some (jsOr (m s) s),
      label := e.label } :: renderEffect_processedEdges m nonceE (i + 1) es

/-- Outcome of the rendering effect: not run, one of its error messages,
or a rendered network.  errException models the TypeError thrown (and
caught as an error message) when the edges field is absent: the warning
check reads edges.length on the raw value.  selfLoopWarnings counts the
self-loop warning messages posted by the filter. -/
inductive RenderResult where
  | notShown
  | errInvalidStructure
  | errNoNodes
  | errException
  | rendered (allFilteredWarning : Bool) (selfLoopWarnings : Nat)
      (nodes : List StyledNode) (edges : List OutEdge)
deriving DecidableEq, Repr

/-- The graph-rendering effect of the current iteration, as a function of
the showGraph flag and currentGraphData. -/
def renderEffect (nonceN nonceE : Nat → String) (showGraph : Bool)
    (currentGraphData : Option Viz) : RenderResult :=
  if !showGraph then .notShown
  else
    match currentGraphData with
    | none => .notShown
    | some g =>
      match g.nodes with
      | none => .errInvalidStructure
      | some nodes =>
        if nodes.length = 0 then .errNoNodes
        else
          match g.edges with
          | none => .errException
          | some edges =>
            let pairs := renderEffect_nodeIdPairs nonceN 0 nodes
            let pEdges := renderEffect_processedEdges (mapGet pairs) nonceE 0
              (edges.filter renderEffect_edgeFilter)
            .rendered (decide (0 < edges.length) && decide (pEdges.length = 0))
              (edges.countP fun e =>
                jsTruthy e.«from» && jsTruthy e.«to» && e.«from» == e.«to»)
              (renderEffect_processedNodes nonceN 0 nodes) pEdges

/-! The older iteration (v0): fetchFullKG and the rendering effect of
src App.jsx before the id-remapping rework. -/
/-- The /api/kg/full body as the v0 client uses it: nodes and edges are
accessed unconditionally. -/
structure FullKgData0 where
  error : Option String
  nodes : List InNode
  edges : List InEdge
deriving DecidableEq, Repr

/-- fetchFullKG of the older iteration: rejects a payload in which nodes
OR edges is empty, and otherwise stores the payload unprocessed. -/
def fetchFullKG_v0 (data : FullKgData0) : Except String (List InNode × List InEdge) :=
  if jsTruthy data.error then .error (jsOr data.error "")
  else if data.nodes.length = 0 || data.edges.length = 0 then
    .error "Received empty knowledge graph data"
  else .ok (data.nodes, data.edges)

/-- The node size hint of the older iteration's rendering effect:
node.group === 'herbs' ? 25 : 20. -/
def nodeRenderSize_v0 (group : Option String) : Nat :=
  if group == some "herbs" then 25 else 20

/-- Outcome of the older iteration's rendering effect. -/
inductive RenderResult0 where
  | errNoData
  | rendered (nodes : List StyledNode) (edges : List InEdge)
deriving DecidableEq, Repr

/-- The older iteration's rendering effect: rejects the payload (with an
error message) when nodes OR edges is empty, and otherwise styles nodes
and edges with no id remapping and no edge filtering. -/
def renderEffect_v0 (nodes : List InNode) (edges : List InEdge) : RenderResult0 :=
  if nodes.length = 0 || edges.length = 0 then .errNoData
  else
    .rendered
      (nodes.map fun n =>
        { id := n.id, label := n.label, group := n.group, size := nodeRenderSize_v0 n.group })
      edges

/-! processResponseText (current iteration, App.jsx lines 300-307): three
chained JS regex replacements.  The two delimiter replacements are
embedded as a left-to-right scan with lazy (shortest-first) search for
the closing delimiter, as the JS regex engine performs for
/\x2a\x2a(.*?)\x2a\x2a/g and /\x2a(.*?)\x2a/g; the dot excludes JS line
terminators.  The final replacement removes every remaining asterisk. -/
/-- Characters matched by an unflagged JS regex dot: everything except
the four JS line terminators. -/
def isDotChar (c : Char) : Bool :=
  !(c == '\n' || c == '\r' || c.toNat == 0x2028 || c.toNat == 0x2029)

/-- Lazy search for the closing delimiter: returns the shortest dot-only
prefix followed by the delimiter, and what remains after it. -/
def findLazyClose (d : Char) (ds : List Char) : List Char → Option (List Char × List Char)
  | [] => none
  | c :: cs =>
    if (d :: ds).isPrefixOf (c :: cs) then some ([], (c :: cs).drop (d :: ds).length)
    else if isDotChar c then
      match findLazyClose d ds cs with
      | some (inner, rest) => some (c :: inner, rest)
      | none => none
    else none

/-- One global lazy delimiter replacement pass, replacing
delimiter-inner-delimiter with the bold tags around inner, scanning left
to right and resuming after each match, as String.prototype.replace with
a global regex does.  The fuel argument only bounds the number of scan
steps so that the recursion is structural: every step consumes at least
one input character (findLazyClose_length), so the input length used by
replaceDelim is always sufficient fuel and the zero-fuel clause is never
reached from replaceDelim. -/
def replaceDelimCore (d : Char) (ds : List Char) : Nat → List Char → List Char
  | 0, l => l
  | _ + 1, [] => []
  | fuel + 1, c :: cs =>
    if (d :: ds).isPrefixOf (c :: cs) then
      match findLazyClose d ds ((c :: cs).drop (d :: ds).length) with
      | some (inner, rest) =>
        '<' :: 'b' :: '>' ::
          (inner ++ '<' :: '/' :: 'b' :: '>' :: replaceDelimCore d ds fuel rest)
      | none => c :: replaceDelimCore d ds fuel cs
    else c :: replaceDelimCore d ds fuel cs

/-- The delimiter replacement pass on a whole character list. -/
def replaceDelim (d : Char) (ds : List Char) (l : List Char) : List Char :=
  replaceDelimCore d ds l.length l

/-- processResponseText: converts double-asterisk and single-asterisk
emphasis to bold tags, then removes any remaining asterisks. -/
def processResponseText (text : String) : String :=
  ⟨(replaceDelim '*' [] (replaceDelim '*' ['*'] text.data)).filter (fun c => !(c == '*'))⟩

/-! formatResults and the response handling in send (current iteration,
App.jsx lines 309-414). -/
/-- Whitespace removed by String.prototype.trim. -/
def jsWhitespace (c : Char) : Bool :=
  c == ' ' || c == '\t' || c == '\n' || c == '\r' || c == '\x0b' || c == '\x0c' ||
    c.toNat == 0xa0 || c.toNat == 0xfeff

/-- The relationship key cleanup:
key.replace(underscores to spaces).replace(space before capitals).trim(). -/
def cleanKey (k : String) : String :=
  ⟨(((k.data.map fun c => if c == '_' then ' ' else c).flatMap fun c =>
      if 'A' ≤ c && c ≤ 'Z' then [' ', c] else [c]).dropWhile jsWhitespace).reverse.dropWhile
        jsWhitespace |>.reverse⟩

/-- The description shown for an entity:
entity.details?.description?.[0] || 'No description available'. -/
def entityDescription (e : Entity) : String :=
  jsOr
    (match e.description with
      | some (d :: _) => some d
      | _ => none)
    "No description available"

/-- One entity line of the sources section. -/
def entityLine (e : Entity) : String :=
  "\n- " ++ e.label ++ " (" ++ e.type ++ "): " ++ entityDescription e

/-- One relationship item as rendered in the sources section. -/
def relItemText (it : RelItem) : String :=
  it.fromLabel ++ " -> " ++ it.toLabel ++ " (" ++ it.relation ++ ")"

/-- One relationship line: skipped for an empty item list, otherwise the
cleaned key with the first five items joined by commas. -/
def relLine (k : String) (items : List RelItem) : String :=
  if 0 < items.length then
    "\n- " ++ cleanKey k ++ ": " ++ String.intercalate ", " ((items.take 5).map relItemText)
  else ""

/-- The Entities Found sub-block of the sources section. -/
def entitiesSection (kg : KgData) : String :=
  match kg.entities with
  | some es =>
    if 0 < es.length then "\nEntities Found:" ++ String.join ((es.take 5).map entityLine)
    else ""
  | none => ""

/-- The Relationships sub-block of the sources section. -/
def relationshipsSection (kg : KgData) : String :=
  match kg.relationships with
  | some rs =>
    if 0 < rs.length then "\nRelationships:" ++ String.join (rs.map fun p => relLine p.1 p.2)
    else ""
  | none => ""

/-- The condition under which formatResults appends the sources section:
kg_data has a nonempty entities array or a relationships object with at
least one key. -/
def kgGate (kg : KgData) : Bool :=
  (match kg.entities with
    | some es => decide (0 < es.length)
    | none => false) ||
  (match kg.relationships with
    | some rs => decide (0 < rs.length)
    | none => false)

/-- The whole sources section appended for a gated kg_data. -/
def kgSection (kg : KgData) : String :=
  "\n\n📚 Sources from Knowledge Graph:" ++ entitiesSection kg ++ relationshipsSection kg

/-- The query-error text returned when the response carries an error
field: detail when truthy, otherwise the error itself. -/
def errorText (error detail : Option String) : String :=
  "❌ Query Error\n\n" ++ jsOr detail (jsOr error "") ++
    "\n\nTry rephrasing your question or ask about specific herbs like turmeric, ashwagandha, or neem."

/-- formatResults (current iteration): error text for an error response,
otherwise the processed prose with the sources section appended when the
gate holds. -/
def formatResults (data : ChatData) : String :=
  if jsTruthy data.error then errorText data.error data.detail
  else
    let base := processResponseText (jsOr data.response "No response available.")
    match data.kg_data with
    | none => base
    | some kg => if kgGate kg then base ++ kgSection kg else base

/-- What send does with a decoded 200 response: a thrown error caught as
a connection-issue message when the body carries an error field,
otherwise a bot message whose text is formatResults, whose type is
selected by confidence === 'high', and which carries kg_data. -/
inductive SendOutcome where
  | connectionError (message : String)
  | botMessage (text : String) (msgType : String) (kg : Option KgData)
deriving DecidableEq, Repr

/-- The response handling of send (current iteration). -/
def sendProcess (data : ChatData) : SendOutcome :=
  if jsTruthy data.error then .connectionError (jsOr data.error "")
  else
    .botMessage (formatResults data)
      (if data.confidence == "high" then "results" else "no-results") data.kg_data

/-! Shared lemmas about the pipelines. -/
/-- Endpoint remapping as performed on one endpoint of a filtered edge:
nodeIdMap.get(x) || x, on a possibly-absent endpoint. -/
def epMap (m : String → Option String) : Option String → Option String
  | none => none
  | some s => some (jsOr (m s) s)

/-- The referential-integrity property claimed for a processed payload:
every edge endpoint is the id of some render node in the payload. -/
def renderIntegrity (ns : List RenderNode) (es : List OutEdge) : Prop :=
  ∀ e ∈ es, (∃ rn ∈ ns, e.«from» = some rn.id) ∧ (∃ rn ∈ ns, e.«to» = some rn.id)

instance (ns : List RenderNode) (es : List OutEdge) : Decidable (renderIntegrity ns es) := by
  unfold renderIntegrity
  infer_instance

/-- The kg_data used by the C5 counterexample: one entity, no
relationships, no visualization, carried by a low-confidence response. -/
def c5LowConfidence : ChatData :=
  ⟨none, none, some "hi", "low",
    some ⟨some [⟨"e1", "Ashwagandha", "herbs", some ["calming herb"]⟩], none, none⟩⟩

theorem toDigitsCore_eq_digitsRep (fuel : Nat) :
    ∀ n ds, 0 < fuel → n < 10 ^ fuel →
      Nat.toDigitsCore 10 fuel n ds = digitsRep n ++ ds := by
  induction fuel with
  | zero => intro n ds h; omega
  | succ f ih =>
    intro n ds _ hn
    simp only [Nat.toDigitsCore]
    by_cases h10 : n < 10
    · have hdiv : n / 10 = 0 := Nat.div_eq_of_lt h10
      rw [if_pos hdiv, digitsRep, if_pos h10, Nat.mod_eq_of_lt h10]
      rfl
    · have hdiv : n / 10 ≠ 0 := by omega
      rw [if_neg hdiv]
      have hf : 0 < f := by
        rcases Nat.eq_zero_or_pos f with h | h
        · subst h; simp at hn; omega
        · exact h
      have hlt : n / 10 < 10 ^ f := by
        rw [Nat.div_lt_iff_lt_mul (by omega)]
        calc n < 10 ^ (f + 1) := hn
        _ = 10 ^ f * 10 := by rw [pow_succ]
      rw [ih (n / 10) (Nat.digitChar (n % 10) :: ds) hf hlt]
      conv_rhs => rw [digitsRep, if_neg h10]
      simp

theorem repr_eq_digitsRep (n : Nat) : Nat.repr n = (digitsRep n).asString := by
  have hlt : n < 10 ^ (n + 1) := by
    calc n < 10 ^ n := Nat.lt_pow_self (by omega) n
    _ ≤ 10 ^ (n + 1) := Nat.pow_le_pow_right (by omega) (by omega)
  unfold Nat.repr Nat.toDigits
  rw [toDigitsCore_eq_digitsRep (n + 1) n [] (by omega) hlt, List.append_nil]

theorem digitChar_toNat (k : Nat) (h : k < 10) : (Nat.digitChar k).toNat = 48 + k := by
  interval_cases k <;> decide

theorem digitChar_ne_underscore (k : Nat) : Nat.digitChar k ≠ '_' := by
  by_cases h : k < 16
  · interval_cases k <;> decide
  · unfold Nat.digitChar
    iterate 16 rw [if_neg (by omega)]
    decide

theorem digitsVal_append_one (l : List Char) (c : Char) :
    digitsVal (l ++ [c]) = 10 * digitsVal l + (c.toNat - 48) := by
  simp [digitsVal, List.foldl_append]

theorem digitsVal_digitsRep (n : Nat) : digitsVal (digitsRep n) = n := by
  induction n using Nat.strong_induction_on with
  | _ n ih =>
    rw [digitsRep]
    by_cases h10 : n < 10
    · rw [if_pos h10]
      simp [digitsVal, digitChar_toNat n h10]
    · rw [if_neg h10]
      rw [digitsVal_append_one, ih (n / 10) (Nat.div_lt_self (by omega) (by omega)),
        digitChar_toNat (n % 10) (Nat.mod_lt n (by omega))]
      omega

theorem reprNat_injective : ∀ m n : Nat, Nat.repr m = Nat.repr n → m = n := by
  intro m n h
  rw [repr_eq_digitsRep, repr_eq_digitsRep] at h
  have hdata : digitsRep m = digitsRep n := by
    have := congrArg String.data h
    simpa [List.asString] using this
  have := congrArg digitsVal hdata
  rwa [digitsVal_digitsRep, digitsVal_digitsRep] at this

theorem underscore_not_mem_digitsRep (n : Nat) : '_' ∉ digitsRep n := by
  induction n using Nat.strong_induction_on with
  | _ n ih =>
    rw [digitsRep]
    by_cases h10 : n < 10
    · rw [if_pos h10]
      simp
      exact fun h => digitChar_ne_underscore n h.symm
    · rw [if_neg h10]
      simp
      refine ⟨fun h => ?_, fun h => digitChar_ne_underscore (n % 10) h.symm⟩
      exact ih (n / 10) (Nat.div_lt_self (by omega) (by omega)) h

theorem underscore_not_mem_repr (n : Nat) : '_' ∉ (Nat.repr n).data := by
  rw [repr_eq_digitsRep]
  simpa [List.asString] using underscore_not_mem_digitsRep n

/-- Splitting a character list at its first underscore is unambiguous when
the parts before the underscore are underscore-free. -/
theorem append_underscore_inj :
    ∀ (a1 : List Char) {b1 : List Char} (a2 : List Char) {b2 : List Char},
      '_' ∉ a1 → '_' ∉ a2 → a1 ++ '_' :: b1 = a2 ++ '_' :: b2 →
      a1 = a2 ∧ b1 = b2 := by
  intro a1
  induction a1 with
  | nil =>
    intro b1 a2 b2 _ h2 h
    cases a2 with
    | nil => simpa using h
    | cons c t =>
      simp at h
      exact absurd (h.1 ▸ List.mem_cons_self c t) h2
  | cons c t ih =>
    intro b1 a2 b2 h1 h2 h
    cases a2 with
    | nil =>
      simp at h
      exact absurd (h.1 ▸ List.mem_cons_self c t) h1
    | cons c2 t2 =>
      simp only [List.cons_append, List.cons.injEq] at h
      obtain ⟨hc, ht⟩ := h
      have := ih t2 (fun hm => h1 (List.mem_cons_of_mem c hm))
        (fun hm => h2 (List.mem_cons_of_mem c2 hm)) ht
      exact ⟨by rw [hc, this.1], this.2⟩

/-- Helper: two strings with equal character data are equal. -/
theorem string_eq_of_data_eq {s t : String} (h : s.data = t.data) : s = t := by
  cases s; cases t; simp_all

theorem freshNodeId_data (nonce : Nat → String) (i : Nat) :
    (freshNodeId nonce i).data =
      'n' :: 'o' :: 'd' :: 'e' :: '_' :: ((Nat.repr i).data ++ '_' :: (nonce i).data) := by
  show (("node_" ++ Nat.repr i ++ "_") ++ nonce i).data = _
  rw [String.data_append, String.data_append, String.data_append]
  simp

theorem freshNodeId_injOn (nonce1 nonce2 : Nat → String) (i j : Nat)
    (h : freshNodeId nonce1 i = freshNodeId nonce2 j) : i = j ∧ nonce1 i = nonce2 j := by
  have hd := congrArg String.data h
  rw [freshNodeId_data, freshNodeId_data] at hd
  simp only [List.cons.injEq, true_and] at hd
  have hsplit := append_underscore_inj (Nat.repr i).data (Nat.repr j).data
    (underscore_not_mem_repr i) (underscore_not_mem_repr j) hd
  refine ⟨reprNat_injective i j (string_eq_of_data_eq hsplit.1), string_eq_of_data_eq hsplit.2⟩

theorem freshNodeId_inj (nonce : Nat → String) (i j : Nat)
    (h : freshNodeId nonce i = freshNodeId nonce j) : i = j :=
  (freshNodeId_injOn nonce nonce i j h).1

theorem freshNodeId_ne_empty (nonce : Nat → String) (i : Nat) : freshNodeId nonce i ≠ "" := by
  intro h
  have := congrArg String.data h
  rw [freshNodeId_data] at this
  simp at this

theorem findLazyClose_length (d : Char) (ds : List Char) :
    ∀ l inner rest, findLazyClose d ds l = some (inner, rest) → rest.length < l.length := by
  intro l
  induction l with
  | nil => intro inner rest h; simp [findLazyClose] at h
  | cons c cs ih =>
    intro inner rest h
    rw [findLazyClose] at h
    split at h
    · injection h with h'
      injection h' with h1 h2
      subst h2
      simp only [List.length_drop, List.length_cons]
      omega
    · split at h
      · cases hfc : findLazyClose d ds cs with
        | none => rw [hfc] at h; simp at h
        | some p =>
          obtain ⟨i2, r2⟩ := p
          rw [hfc] at h
          injection h with h'
          injection h' with h1 h2
          subst h2
          have := ih i2 r2 hfc
          simp only [List.length_cons]
          omega
      · simp at h

theorem showQueryGraph_edgeFilter_eq (e : InEdge) :
    showQueryGraph_edgeFilter e =
      (jsTruthy e.«from» && jsTruthy e.«to» && !(e.«from» == e.«to»)) := by
  unfold showQueryGraph_edgeFilter
  cases jsTruthy e.«from» && jsTruthy e.«to» && !(e.«from» == e.«to») <;> simp

theorem fetchFullKG_edgeFilter_eq (e : InEdge) :
    fetchFullKG_edgeFilter e =
      (jsTruthy e.«from» && jsTruthy e.«to» && !(e.«from» == e.«to»)) := rfl

theorem renderEffect_edgeFilter_eq (e : InEdge) :
    renderEffect_edgeFilter e =
      (jsTruthy e.«from» && jsTruthy e.«to» && !(e.«from» == e.«to»)) := by
  unfold renderEffect_edgeFilter
  cases hf : jsTruthy e.«from» <;> cases ht : jsTruthy e.«to» <;>
    cases he : e.«from» == e.«to» <;> simp

theorem fetchFullKG_nodeIdPairs_eq (nonce : Nat → String) :
    ∀ i ns, fetchFullKG_nodeIdPairs nonce i ns = showQueryGraph_nodeIdPairs nonce i ns := by
  intro i ns
  induction ns generalizing i with
  | nil => rfl
  | cons n ns ih => simp [fetchFullKG_nodeIdPairs, showQueryGraph_nodeIdPairs, ih]

theorem renderEffect_nodeIdPairs_eq (nonce : Nat → String) :
    ∀ i ns, renderEffect_nodeIdPairs nonce i ns = showQueryGraph_nodeIdPairs nonce i ns := by
  intro i ns
  induction ns generalizing i with
  | nil => rfl
  | cons n ns ih => simp [renderEffect_nodeIdPairs, showQueryGraph_nodeIdPairs, ih]

theorem fetchFullKG_processedNodes_eq (nonce : Nat → String) :
    ∀ i ns, fetchFullKG_processedNodes nonce i ns = showQueryGraph_processedNodes nonce i ns := by
  intro i ns
  induction ns generalizing i with
  | nil => rfl
  | cons n ns ih => simp [fetchFullKG_processedNodes, showQueryGraph_processedNodes, ih]

theorem fetchFullKG_processedEdges_eq (m : String → Option String) (nonceE : Nat → String) :
    ∀ i es, fetchFullKG_processedEdges m nonceE i es = showQueryGraph_remapEdges m nonceE i es := by
  intro i es
  induction es generalizing i with
  | nil => rfl
  | cons e es ih => simp [fetchFullKG_processedEdges, showQueryGraph_remapEdges, ih]

theorem renderEffect_processedEdges_eq (m : String → Option String) (nonceE : Nat → String) :
    ∀ i es, renderEffect_processedEdges m nonceE i es = showQueryGraph_remapEdges m nonceE i es := by
  intro i es
  induction es generalizing i with
  | nil => rfl
  | cons e es ih => simp [renderEffect_processedEdges, showQueryGraph_remapEdges, ih]

theorem showQueryGraph_remapEdges_cons (m : String → Option String) (nonceE : Nat → String)
    (i : Nat) (e : InEdge) (es : List InEdge) :
    showQueryGraph_remapEdges m nonceE i (e :: es) =
      { id := freshEdgeId nonceE i, «from» := epMap m e.«from», «to» := epMap m e.«to»,
        label := e.label } :: showQueryGraph_remapEdges m nonceE (i + 1) es := by
  rw [showQueryGraph_remapEdges]
  cases e.«from» <;> cases e.«to» <;> rfl

/-- What a successful Map lookup on the node pairs returns: the fresh id
of a node position whose original id is the key. -/
theorem mapGet_nodeIdPairs_spec (nonce : Nat → String) :
    ∀ (ns : List InNode) (i : Nat) (s v : String),
      mapGet (showQueryGraph_nodeIdPairs nonce i ns) s = some v →
      ∃ j n, ns.get? j = some n ∧ n.id = s ∧ v = freshNodeId nonce (i + j) := by
  intro ns
  induction ns with
  | nil => intro i s v h; simp [showQueryGraph_nodeIdPairs, mapGet] at h
  | cons n ns ih =>
    intro i s v h
    rw [showQueryGraph_nodeIdPairs, mapGet] at h
    cases hrest : mapGet (showQueryGraph_nodeIdPairs nonce (i + 1) ns) s with
    | some w =>
      rw [hrest] at h
      obtain ⟨j, n', hget, hid, hv⟩ := ih (i + 1) s w hrest
      have hw : w = v := Option.some.inj h
      refine ⟨j + 1, n', by simpa using hget, hid, ?_⟩
      rw [← hw, hv]
      congr 1
      omega
    | none =>
      rw [hrest] at h
      cases hbeq : (n.id == s) with
      | true =>
        simp only [hbeq, if_true] at h
        refine ⟨0, n, rfl, by simpa using hbeq, ?_⟩
        rw [← Option.some.inj h]
        rfl
      | false =>
        simp only [hbeq, if_false] at h
        cases h

/-- A key that is some node's original id has a Map entry. -/
theorem mapGet_nodeIdPairs_isSome (nonce : Nat → String) :
    ∀ (ns : List InNode) (i : Nat) (s : String), (∃ n ∈ ns, n.id = s) →
      ∃ v, mapGet (showQueryGraph_nodeIdPairs nonce i ns) s = some v := by
  intro ns
  induction ns with
  | nil => intro i s h; simp at h
  | cons n ns ih =>
    intro i s h
    rw [showQueryGraph_nodeIdPairs, mapGet]
    cases hrest : mapGet (showQueryGraph_nodeIdPairs nonce (i + 1) ns) s with
    | some w => exact ⟨w, rfl⟩
    | none =>
      rcases h with ⟨n', hn', hid⟩
      rcases List.mem_cons.mp hn' with h1 | h1
      · have hbeq : (n.id == s) = true := by
          subst h1; simp [hid]
        simp [hbeq]
      · obtain ⟨w, hw⟩ := ih (i + 1) s ⟨n', h1, hid⟩
        rw [hw] at hrest
        cases hrest

/-- A key that is no node's original id has no Map entry. -/
theorem mapGet_nodeIdPairs_eq_none (nonce : Nat → String) :
    ∀ (ns : List InNode) (i : Nat) (s : String), (∀ n ∈ ns, n.id ≠ s) →
      mapGet (showQueryGraph_nodeIdPairs nonce i ns) s = none := by
  intro ns
  induction ns with
  | nil => intro i s _; rfl
  | cons n ns ih =>
    intro i s h
    rw [showQueryGraph_nodeIdPairs, mapGet]
    rw [ih (i + 1) s fun n' hn' => h n' (List.mem_cons_of_mem n hn')]
    have hbeq : (n.id == s) = false := by
      simp [h n (List.mem_cons_self n ns)]
    simp [hbeq]

/-- The ids of the processed node list are exactly the fresh ids of the
positions of the input list. -/
theorem mem_processedNodes_ids (nonce : Nat → String) :
    ∀ (ns : List InNode) (i : Nat) (v : String),
      v ∈ (showQueryGraph_processedNodes nonce i ns).map (fun rn => rn.id) ↔
        ∃ j, j < ns.length ∧ v = freshNodeId nonce (i + j) := by
  intro ns
  induction ns with
  | nil => intro i v; simp [showQueryGraph_processedNodes]
  | cons n ns ih =>
    intro i v
    rw [showQueryGraph_processedNodes]
    simp only [List.map_cons, List.mem_cons, List.length_cons, ih (i + 1) v]
    constructor
    · rintro (h | ⟨j, hj, hv⟩)
      · exact ⟨0, by omega, by simpa using h⟩
      · exact ⟨j + 1, by omega, by rw [hv]; congr 1; omega⟩
    · rintro ⟨j, hj, hv⟩
      cases j with
      | zero => exact Or.inl (by simpa using hv)
      | succ j =>
        exact Or.inr ⟨j, by omega, by rw [hv]; congr 1; omega⟩

/-- The processed node ids are pairwise distinct. -/
theorem processedNodes_ids_nodup (nonce : Nat → String) :
    ∀ (ns : List InNode) (i : Nat),
      ((showQueryGraph_processedNodes nonce i ns).map (fun rn => rn.id)).Nodup := by
  intro ns
  induction ns with
  | nil => intro i; simp [showQueryGraph_processedNodes]
  | cons n ns ih =>
    intro i
    rw [showQueryGraph_processedNodes]
    simp only [List.map_cons, List.nodup_cons]
    refine ⟨fun hmem => ?_, ih (i + 1)⟩
    obtain ⟨j, _, hv⟩ := (mem_processedNodes_ids nonce ns (i + 1) _).mp hmem
    have := freshNodeId_inj nonce i (i + 1 + j) hv
    omega

/-- Every processed edge arises from an input edge by fresh-id assignment
and endpoint remapping. -/
theorem mem_remapEdges (m : String → Option String) (nonceE : Nat → String) :
    ∀ (es : List InEdge) (i : Nat) (e' : OutEdge),
      e' ∈ showQueryGraph_remapEdges m nonceE i es →
      ∃ e ∈ es, e'.«from» = epMap m e.«from» ∧ e'.«to» = epMap m e.«to» ∧
        e'.label = e.label := by
  intro es
  induction es with
  | nil => intro i e' h; simp [showQueryGraph_remapEdges] at h
  | cons e es ih =>
    intro i e' h
    rw [showQueryGraph_remapEdges_cons] at h
    rcases List.mem_cons.mp h with h1 | h1
    · exact ⟨e, List.mem_cons_self e es, by rw [h1], by rw [h1], by rw [h1]⟩
    · obtain ⟨e0, he0, hf, ht, hl⟩ := ih (i + 1) e' h1
      exact ⟨e0, List.mem_cons_of_mem e he0, hf, ht, hl⟩

/-- Every input edge of the filtered list appears remapped in the
processed list. -/
theorem remapEdges_mem (m : String → Option String) (nonceE : Nat → String) :
    ∀ (es : List InEdge) (i : Nat) (e : InEdge), e ∈ es →
      ∃ e' ∈ showQueryGraph_remapEdges m nonceE i es,
        e'.«from» = epMap m e.«from» ∧ e'.«to» = epMap m e.«to» := by
  intro es
  induction es with
  | nil => intro i e h; simp at h
  | cons e0 es ih =>
    intro i e h
    rw [showQueryGraph_remapEdges_cons]
    rcases List.mem_cons.mp h with h1 | h1
    · subst h1
      exact ⟨_, List.mem_cons_self _ _, rfl, rfl⟩
    · obtain ⟨e', he', hf, ht⟩ := ih (i + 1) e h1
      exact ⟨e', List.mem_cons_of_mem _ he', hf, ht⟩

theorem jsOr_of_some (v s : String) (hv : v ≠ "") : jsOr (some v) s = v := by
  simp [jsOr, hv]

/-- Normalized form of the Map spec for the top-level call. -/
theorem mapGet_nodeIdPairs_shape (nonce : Nat → String) (ns : List InNode) (s v : String)
    (h : mapGet (showQueryGraph_nodeIdPairs nonce 0 ns) s = some v) :
    ∃ j n, ns.get? j = some n ∧ n.id = s ∧ v = freshNodeId nonce j := by
  obtain ⟨j, n, h1, h2, h3⟩ := mapGet_nodeIdPairs_spec nonce ns 0 s v h
  exact ⟨j, n, h1, h2, by simpa using h3⟩

/-- A Map value is one of the processed node ids. -/
theorem mapGet_value_mem_ids (nonceN : Nat → String) (ns : List InNode) (s v : String)
    (h : mapGet (showQueryGraph_nodeIdPairs nonceN 0 ns) s = some v) :
    v ∈ (showQueryGraph_processedNodes nonceN 0 ns).map (fun rn => rn.id) := by
  obtain ⟨j, n, h1, -, h3⟩ := mapGet_nodeIdPairs_shape nonceN ns s v h
  refine (mem_processedNodes_ids nonceN ns 0 v).mpr ⟨j, ?_, by simpa using h3⟩
  exact List.get?_eq_some.mp h1 |>.fst

/-- Unpacking of the common edge-validity condition. -/
theorem edgeValid_unpack (e : InEdge)
    (hval : (jsTruthy e.«from» && jsTruthy e.«to» && !(e.«from» == e.«to»)) = true) :
    ∃ s1 s2, e.«from» = some s1 ∧ e.«to» = some s2 ∧ s1 ≠ "" ∧ s2 ≠ "" ∧ s1 ≠ s2 := by
  simp only [Bool.and_eq_true, Bool.not_eq_true'] at hval
  obtain ⟨⟨hf, ht⟩, hne⟩ := hval
  cases hef : e.«from» with
  | none => rw [hef] at hf; simp [jsTruthy] at hf
  | some s1 =>
    cases het : e.«to» with
    | none => rw [het] at ht; simp [jsTruthy] at ht
    | some s2 =>
      rw [hef] at hf
      rw [het] at ht
      rw [hef, het] at hne
      refine ⟨s1, s2, rfl, rfl, ?_, ?_, ?_⟩
      · simpa [jsTruthy] using hf
      · simpa [jsTruthy] using ht
      · simpa using hne

/-- Core of the self-loop invariant: the remapped endpoints of a valid
edge are distinct, provided the fresh node ids collide with no raw
endpoint id occurring in the edge list. -/
theorem epMap_ne_of_valid (nonceN : Nat → String) (nodes : List InNode) (edges : List InEdge)
    (hFresh : ∀ i s, (∃ e ∈ edges, e.«from» = some s ∨ e.«to» = some s) →
      freshNodeId nonceN i ≠ s)
    (e : InEdge) (he : e ∈ edges)
    (hval : (jsTruthy e.«from» && jsTruthy e.«to» && !(e.«from» == e.«to»)) = true) :
    epMap (mapGet (showQueryGraph_nodeIdPairs nonceN 0 nodes)) e.«from» ≠
      epMap (mapGet (showQueryGraph_nodeIdPairs nonceN 0 nodes)) e.«to» := by
  obtain ⟨s1, s2, hef, het, h1ne, h2ne, hne⟩ := edgeValid_unpack e hval
  rw [hef, het]
  intro heq
  simp only [epMap, Option.some.injEq] at heq
  cases hm1 : mapGet (showQueryGraph_nodeIdPairs nonceN 0 nodes) s1 with
  | some v1 =>
    obtain ⟨j1, n1, hg1, hid1, hv1⟩ := mapGet_nodeIdPairs_shape nonceN nodes s1 v1 hm1
    have hv1ne : v1 ≠ "" := hv1 ▸ freshNodeId_ne_empty nonceN j1
    rw [hm1, jsOr_of_some v1 s1 hv1ne] at heq
    cases hm2 : mapGet (showQueryGraph_nodeIdPairs nonceN 0 nodes) s2 with
    | some v2 =>
      obtain ⟨j2, n2, hg2, hid2, hv2⟩ := mapGet_nodeIdPairs_shape nonceN nodes s2 v2 hm2
      have hv2ne : v2 ≠ "" := hv2 ▸ freshNodeId_ne_empty nonceN j2
      rw [hm2, jsOr_of_some v2 s2 hv2ne] at heq
      have hj : j1 = j2 := freshNodeId_inj nonceN j1 j2 (by rw [← hv1, ← hv2, heq])
      rw [hj, hg2] at hg1
      exact hne (by rw [← hid1, ← hid2, Option.some.inj hg1])
    | none =>
      rw [hm2] at heq
      simp only [jsOr] at heq
      exact hFresh j1 s2 ⟨e, he, Or.inr het⟩ (by rw [← hv1, heq])
  | none =>
    cases hm2 : mapGet (showQueryGraph_nodeIdPairs nonceN 0 nodes) s2 with
    | some v2 =>
      obtain ⟨j2, n2, hg2, hid2, hv2⟩ := mapGet_nodeIdPairs_shape nonceN nodes s2 v2 hm2
      have hv2ne : v2 ≠ "" := hv2 ▸ freshNodeId_ne_empty nonceN j2
      rw [hm1, hm2, jsOr_of_some v2 s2 hv2ne] at heq
      simp only [jsOr] at heq
      exact hFresh j2 s1 ⟨e, he, Or.inl hef⟩ (by rw [← hv2, ← heq])
    | none =>
      rw [hm1, hm2] at heq
      simp only [jsOr] at heq
      exact hne heq

/-- An endpoint that matches some node id is remapped to a processed node
id (the Map value, which is never empty). -/
theorem epMap_resolves (nonceN : Nat → String) (nodes : List InNode) (s : String)
    (n : InNode) (hn : n ∈ nodes) (hid : n.id = s) :
    ∃ v, epMap (mapGet (showQueryGraph_nodeIdPairs nonceN 0 nodes)) (some s) = some v ∧
      v ∈ (showQueryGraph_processedNodes nonceN 0 nodes).map (fun rn => rn.id) := by
  obtain ⟨v, hv⟩ := mapGet_nodeIdPairs_isSome nonceN nodes 0 s ⟨n, hn, hid⟩
  obtain ⟨j, n', -, -, hshape⟩ := mapGet_nodeIdPairs_shape nonceN nodes s v hv
  refine ⟨v, ?_, mapGet_value_mem_ids nonceN nodes s v hv⟩
  simp only [epMap, hv]
  rw [jsOr_of_some v s (hshape ▸ freshNodeId_ne_empty nonceN j)]

/-- Referential integrity of the processed edges, under the hypothesis
that every endpoint of every input edge matches some input node id. -/
theorem remapEdges_integrity (nonceN nonceE : Nat → String) (nodes : List InNode)
    (edges : List InEdge)
    (hIn : ∀ e ∈ edges, ∀ s, (e.«from» = some s ∨ e.«to» = some s) →
      ∃ n ∈ nodes, n.id = s) :
    ∀ e' ∈ showQueryGraph_remapEdges (mapGet (showQueryGraph_nodeIdPairs nonceN 0 nodes))
        nonceE 0 (edges.filter showQueryGraph_edgeFilter),
      (∃ rn ∈ showQueryGraph_processedNodes nonceN 0 nodes, e'.«from» = some rn.id) ∧
      (∃ rn ∈ showQueryGraph_processedNodes nonceN 0 nodes, e'.«to» = some rn.id) := by
  intro e' he'
  obtain ⟨e, hef, hfrom, hto, -⟩ := mem_remapEdges _ _ _ 0 e' he'
  obtain ⟨he, hfil⟩ := List.mem_filter.mp hef
  rw [showQueryGraph_edgeFilter_eq] at hfil
  obtain ⟨s1, s2, h1, h2, -, -, -⟩ := edgeValid_unpack e hfil
  constructor
  · obtain ⟨n, hn, hid⟩ := hIn e he s1 (Or.inl h1)
    obtain ⟨v, hvmap, hvmem⟩ := epMap_resolves nonceN nodes s1 n hn hid
    obtain ⟨rn, hrn, hrid⟩ := List.mem_map.mp hvmem
    exact ⟨rn, hrn, by rw [hfrom, h1, hvmap, hrid]⟩
  · obtain ⟨n, hn, hid⟩ := hIn e he s2 (Or.inr h2)
    obtain ⟨v, hvmap, hvmem⟩ := epMap_resolves nonceN nodes s2 n hn hid
    obtain ⟨rn, hrn, hrid⟩ := List.mem_map.mp hvmem
    exact ⟨rn, hrn, by rw [hto, h2, hvmap, hrid]⟩

/-- A surviving edge whose to endpoint matches no node id is kept with
its original (unmapped) id. -/
theorem remapEdges_keeps_dangling (nonceN nonceE : Nat → String) (nodes : List InNode)
    (edges : List InEdge) (s : String)
    (hs : ∃ e ∈ edges, showQueryGraph_edgeFilter e = true ∧ e.«to» = some s)
    (hout : ∀ n ∈ nodes, n.id ≠ s) :
    ∃ e' ∈ showQueryGraph_remapEdges (mapGet (showQueryGraph_nodeIdPairs nonceN 0 nodes))
        nonceE 0 (edges.filter showQueryGraph_edgeFilter),
      e'.«to» = some s := by
  obtain ⟨e, he, hfil, het⟩ := hs
  have hmem : e ∈ edges.filter showQueryGraph_edgeFilter := List.mem_filter.mpr ⟨he, hfil⟩
  obtain ⟨e', he', -, ht⟩ := remapEdges_mem _ _ _ 0 e hmem
  refine ⟨e', he', ?_⟩
  rw [ht, het]
  simp only [epMap]
  rw [mapGet_nodeIdPairs_eq_none nonceN nodes 0 s hout]
  simp [jsOr]

/-! Lemmas for processResponseText. -/
theorem replaceDelimCore_no_star (ds : List Char) :
    ∀ fuel l, '*' ∉ l → replaceDelimCore '*' ds fuel l = l := by
  intro fuel
  induction fuel with
  | zero => intro l _; rfl
  | succ f ih =>
    intro l h
    cases l with
    | nil => rfl
    | cons c cs =>
      have hc : c ≠ '*' := fun hc => h (hc ▸ List.mem_cons_self c cs)
      have hpre : (('*' :: ds).isPrefixOf (c :: cs)) = false := by
        simp [List.isPrefixOf]
        intro hcc
        exact absurd hcc.symm hc
      rw [replaceDelimCore]
      simp only [hpre, Bool.false_eq_true, if_false]
      rw [ih cs fun hm => h (List.mem_cons_of_mem c hm)]

theorem replaceDelim_no_star (ds : List Char) :
    ∀ l, '*' ∉ l → replaceDelim '*' ds l = l := fun l h =>
  replaceDelimCore_no_star ds l.length l h

theorem star_not_mem_filtered (l : List Char) : '*' ∉ l.filter (fun c => !(c == '*')) := by
  intro h
  have := List.mem_filter.mp h
  simp at this

theorem processResponseText_data (t : String) :
    (processResponseText t).data =
      (replaceDelim '*' [] (replaceDelim '*' ['*'] t.data)).filter (fun c => !(c == '*')) := rfl

theorem star_not_mem_processResponseText (t : String) :
    '*' ∉ (processResponseText t).data := by
  rw [processResponseText_data]
  exact star_not_mem_filtered _

theorem processResponseText_fixed_point (t : String) :
    processResponseText (processResponseText t) = processResponseText t := by
  apply string_eq_of_data_eq
  rw [processResponseText_data (processResponseText t)]
  have hns := star_not_mem_processResponseText t
  rw [replaceDelim_no_star ['*'] _ hns, replaceDelim_no_star [] _ hns]
  have hall : ∀ c ∈ (processResponseText t).data, (!(c == '*')) = true := by
    intro c hc
    have hcne : c ≠ '*' := fun h => hns (h ▸ hc)
    simp [hcne]
  rw [List.filter_eq_self.mpr hall]

theorem renderEffect_processedNodes_size (nonce : Nat → String) :
    ∀ (ns : List InNode) (i : Nat), ∀ sn ∈ renderEffect_processedNodes nonce i ns,
      sn.size = nodeRenderSize sn.group := by
  intro ns
  induction ns with
  | nil => intro i sn h; simp [renderEffect_processedNodes] at h
  | cons n ns ih =>
    intro i sn h
    rw [renderEffect_processedNodes] at h
    rcases List.mem_cons.mp h with h1 | h1
    · rw [h1]
    · exact ih (i + 1) sn h1

/-! Claim theorems. -/
/-- C10: processResponseText is idempotent (applying it twice equals
applying it once) and its output never contains an asterisk character. -/
theorem C10_processResponseText_idempotent_star_free (s : String) :
    processResponseText (processResponseText s) = processResponseText s ∧
      '*' ∉ (processResponseText s).data :=
  ⟨processResponseText_fixed_point s, star_not_mem_processResponseText s⟩

/-- C9: in both rendering iterations the node size hint is a pure
function of the node's group (nodeRenderSize and nodeRenderSize_v0): the
herbs group gets a strictly larger size than any other group, equal
groups get equal sizes, and the rendering effects assign exactly this
size to every styled node. -/
theorem C9_nodeSize_pure_function (g : Option String) (hg : g ≠ some "herbs")
    (nonce : Nat → String) (i : Nat) (ns nodes0 : List InNode) (edges0 : List InEdge) :
    nodeRenderSize g < nodeRenderSize (some "herbs") ∧
    nodeRenderSize_v0 g < nodeRenderSize_v0 (some "herbs") ∧
    (∀ g1 g2 : Option String, g1 = g2 → nodeRenderSize g1 = nodeRenderSize g2) ∧
    (∀ sn ∈ renderEffect_processedNodes nonce i ns, sn.size = nodeRenderSize sn.group) ∧
    (∀ sns es0, renderEffect_v0 nodes0 edges0 = .rendered sns es0 →
      ∀ sn ∈ sns, sn.size = nodeRenderSize_v0 sn.group) := by
  have hbeq : (g == some "herbs") = false := by simpa using hg
  refine ⟨?_, ?_, ?_, renderEffect_processedNodes_size nonce ns i, ?_⟩
  · simp [nodeRenderSize, hbeq]
  · simp [nodeRenderSize_v0, hbeq]
  · intro g1 g2 h; rw [h]
  · intro sns es0 h sn hsn
    unfold renderEffect_v0 at h
    split at h
    · simp at h
    · injection h with h1 h2
      rw [← h1] at hsn
      obtain ⟨n, -, hn⟩ := List.mem_map.mp hsn
      rw [← hn]

/-- C9 witness. -/
theorem C9_nodeSize_pure_function_witness :
    nodeRenderSize (some "conditions") < nodeRenderSize (some "herbs") ∧
      nodeRenderSize_v0 none < nodeRenderSize_v0 (some "herbs") :=
  ⟨(C9_nodeSize_pure_function (some "conditions") (by decide) (fun _ => "") 0 [] [] []).1,
    (C9_nodeSize_pure_function none (by decide) (fun _ => "") 0 [] [] []).2.1⟩

/-- C7: when a nonempty edge list is entirely filtered out while at
least one node remains, showQueryGraph does not error: it returns a
success with the all-edges-filtered warning set and the nodes-only
payload, and the rendering effect likewise renders nodes only with the
warning set. -/
theorem C7_all_filtered_warns_and_proceeds (nonceN nonceE : Nat → String)
    (nodes : List InNode) (edges : List InEdge)
    (ents : Option (List Entity)) (rels : Option (List (String × List RelItem)))
    (hn : nodes ≠ []) (he : edges ≠ [])
    (hfil : ∀ e ∈ edges, showQueryGraph_edgeFilter e = false) :
    showQueryGraph nonceN nonceE (some ⟨ents, rels, some ⟨some nodes, some edges⟩⟩) =
      .success true (showQueryGraph_processedNodes nonceN 0 nodes) [] ∧
    ∃ w, renderEffect nonceN nonceE true (some ⟨some nodes, some edges⟩) =
      .rendered true w (renderEffect_processedNodes nonceN 0 nodes) [] := by
  have hfe : edges.filter showQueryGraph_edgeFilter = [] := by
    rw [List.filter_eq_nil]
    intro e hee
    simp [hfil e hee]
  have hfe2 : edges.filter renderEffect_edgeFilter = [] := by
    rw [List.filter_eq_nil]
    intro e hee
    rw [renderEffect_edgeFilter_eq, ← showQueryGraph_edgeFilter_eq]
    simp [hfil e hee]
  have hlen : ¬ (nodes.length = 0) := fun h => hn (List.length_eq_zero.mp h)
  have hpos : (decide (0 < edges.length)) = true := by simp [List.length_pos, he]
  constructor
  · simp only [showQueryGraph, Option.getD_some, hfe, hlen, if_false, hpos]
    rw [show showQueryGraph_remapEdges
        (mapGet (showQueryGraph_nodeIdPairs nonceN 0 nodes)) nonceE 0 [] = [] from rfl]
    simp
  · refine ⟨edges.countP fun e =>
      jsTruthy e.«from» && jsTruthy e.«to» && e.«from» == e.«to», ?_⟩
    simp only [renderEffect, Bool.not_true, Bool.false_eq_true, if_false, hlen, hfe2, hpos]
    rw [show renderEffect_processedEdges
        (mapGet (renderEffect_nodeIdPairs nonceN 0 nodes)) nonceE 0 [] = [] from rfl]
    simp

/-- C7 witness. -/
theorem C7_all_filtered_warns_and_proceeds_witness :
    showQueryGraph (fun _ => "t") (fun _ => "t")
        (some ⟨none, none, some ⟨some [⟨"a", none, none⟩],
          some [⟨some "x", some "x", none⟩]⟩⟩) =
      .success true (showQueryGraph_processedNodes (fun _ => "t") 0 [⟨"a", none, none⟩]) [] :=
  (C7_all_filtered_warns_and_proceeds (fun _ => "t") (fun _ => "t")
    [⟨"a", none, none⟩] [⟨some "x", some "x", none⟩] none none
    (by decide) (by decide) (by decide)).1

/-- C4 (amended): in the current iteration a payload with zero nodes is
an error (for a missing or empty nodes array) while a payload with nodes
and zero edges is accepted, both by fetchFullKG and by the rendering
effect; in the older iteration both fetchFullKG and the rendering effect
also reject a nodes-only payload with zero edges as an error. -/
theorem C4_zero_nodes_vs_zero_edges (nonceN nonceE : Nat → String)
    (nodes : List InNode) (edges : List InEdge) (hn : nodes ≠ []) :
    fetchFullKG nonceN nonceE ⟨none, some [], some edges⟩ =
        .error "Received empty knowledge graph nodes" ∧
    fetchFullKG nonceN nonceE ⟨none, none, some edges⟩ =
        .error
          "Invalid knowledge graph data structure from server: nodes missing or not an array" ∧
    fetchFullKG nonceN nonceE ⟨none, some nodes, some []⟩ =
        .ok (fetchFullKG_processedNodes nonceN 0 nodes, []) ∧
    renderEffect nonceN nonceE true (some ⟨some nodes, some []⟩) =
        .rendered false 0 (renderEffect_processedNodes nonceN 0 nodes) [] ∧
    renderEffect nonceN nonceE true (some ⟨some [], some edges⟩) = .errNoNodes ∧
    fetchFullKG_v0 ⟨none, nodes, []⟩ = .error "Received empty knowledge graph data" ∧
    renderEffect_v0 nodes [] = .errNoData := by
  have hlen : ¬ (nodes.length = 0) := fun h => hn (List.length_eq_zero.mp h)
  refine ⟨?_, ?_, ?_, ?_, ?_, ?_, ?_⟩
  · simp [fetchFullKG, jsTruthy]
  · simp [fetchFullKG, jsTruthy]
  · simp only [fetchFullKG, jsTruthy, Bool.false_eq_true, if_false, Option.getD_some,
      hlen, List.filter_nil]
    rfl
  · simp only [renderEffect, Bool.not_true, Bool.false_eq_true, if_false, hlen,
      List.filter_nil]
    rfl
  · simp [renderEffect]
  · simp [fetchFullKG_v0, jsTruthy]
  · simp [renderEffect_v0]

/-- C4 witness. -/
theorem C4_zero_nodes_vs_zero_edges_witness :
    fetchFullKG (fun _ => "t") (fun _ => "t")
        ⟨none, some [⟨"a", none, none⟩], some []⟩ =
      .ok (fetchFullKG_processedNodes (fun _ => "t") 0 [⟨"a", none, none⟩], []) :=
  (C4_zero_nodes_vs_zero_edges (fun _ => "t") (fun _ => "t")
    [⟨"a", none, none⟩] [] (by decide)).2.2.1

/-- C4 counterexample: a one-node, zero-edge payload is rejected as an
error by the older iteration's fetchFullKG and rendering effect, so such
payloads are not accepted as valid on every fetched-graph path. -/
theorem C4_counterexample_v0_rejects_zero_edges :
    fetchFullKG_v0 ⟨none, [⟨"a", none, none⟩], []⟩ =
        .error "Received empty knowledge graph data" ∧
      renderEffect_v0 [⟨"a", none, none⟩] [] = .errNoData :=
  ⟨rfl, rfl⟩

/-- C8: the full-graph fetch applies exactly the same edge-validity
predicate, fresh node-id generation and endpoint remapping to its
payload as the per-query showQueryGraph path, and on a sound body its
result is precisely the payload built by showQueryGraph's processing
functions. -/
theorem C8_full_graph_same_rules (nonceN nonceE : Nat → String) :
    (∀ e, fetchFullKG_edgeFilter e = showQueryGraph_edgeFilter e) ∧
    (∀ i ns, fetchFullKG_nodeIdPairs nonceN i ns = showQueryGraph_nodeIdPairs nonceN i ns) ∧
    (∀ i ns,
      fetchFullKG_processedNodes nonceN i ns = showQueryGraph_processedNodes nonceN i ns) ∧
    (∀ (m : String → Option String) i es,
      fetchFullKG_processedEdges m nonceE i es = showQueryGraph_remapEdges m nonceE i es) ∧
    (∀ nodes edges, nodes ≠ [] →
      fetchFullKG nonceN nonceE ⟨none, some nodes, some edges⟩ =
        .ok (showQueryGraph_processedNodes nonceN 0 nodes,
          showQueryGraph_remapEdges (mapGet (showQueryGraph_nodeIdPairs nonceN 0 nodes))
            nonceE 0 (edges.filter showQueryGraph_edgeFilter))) := by
  refine ⟨?_, fetchFullKG_nodeIdPairs_eq nonceN, fetchFullKG_processedNodes_eq nonceN,
    fun m => fetchFullKG_processedEdges_eq m nonceE, ?_⟩
  · intro e
    rw [fetchFullKG_edgeFilter_eq, showQueryGraph_edgeFilter_eq]
  · intro nodes edges hn
    have hlen : ¬ (nodes.length = 0) := fun h => hn (List.length_eq_zero.mp h)
    have hfc : edges.filter fetchFullKG_edgeFilter = edges.filter showQueryGraph_edgeFilter :=
      List.filter_congr fun e _ => by
        rw [fetchFullKG_edgeFilter_eq, showQueryGraph_edgeFilter_eq]
    simp only [fetchFullKG, jsTruthy, Bool.false_eq_true, if_false, Option.getD_some, hlen,
      hfc, fetchFullKG_nodeIdPairs_eq, fetchFullKG_processedNodes_eq,
      fetchFullKG_processedEdges_eq]

/-- C8 witness. -/
theorem C8_full_graph_same_rules_witness :
    fetchFullKG (fun _ => "t") (fun _ => "u")
        ⟨none, some [⟨"a", none, none⟩], some [⟨some "a", some "b", none⟩]⟩ =
      .ok (showQueryGraph_processedNodes (fun _ => "t") 0 [⟨"a", none, none⟩],
        showQueryGraph_remapEdges
          (mapGet (showQueryGraph_nodeIdPairs (fun _ => "t") 0 [⟨"a", none, none⟩]))
          (fun _ => "u") 0
          ([⟨some "a", some "b", none⟩].filter showQueryGraph_edgeFilter)) :=
  (C8_full_graph_same_rules (fun _ => "t") (fun _ => "u")).2.2.2.2
    [⟨"a", none, none⟩] [⟨some "a", some "b", none⟩] (by decide)

/-- C3: render-node ids are unique within a payload even when two input
nodes share the same entity id (shown for both the per-query and the
full-graph node processing); ids generated by two invocations whose
nonces differ never collide; and an entity-id to render-node-id map is
built that is total on the input node ids, maps into the processed node
ids, and is the function through which every processed edge's endpoints
are remapped. -/
theorem C3_ids_unique_fresh_mapped (nonceN nonce2 nonceE : Nat → String)
    (nodes nodes2 : List InNode) (edges : List InEdge)
    (hcross : ∀ i j, nonceN i ≠ nonce2 j) :
    ((showQueryGraph_processedNodes nonceN 0 nodes).map (fun rn => rn.id)).Nodup ∧
    ((fetchFullKG_processedNodes nonceN 0 nodes).map (fun rn => rn.id)).Nodup ∧
    (∀ v1 ∈ (showQueryGraph_processedNodes nonceN 0 nodes).map (fun rn => rn.id),
      ∀ v2 ∈ (showQueryGraph_processedNodes nonce2 0 nodes2).map (fun rn => rn.id),
        v1 ≠ v2) ∧
    (∀ s, (∃ n ∈ nodes, n.id = s) →
      ∃ v, mapGet (showQueryGraph_nodeIdPairs nonceN 0 nodes) s = some v ∧
        v ∈ (showQueryGraph_processedNodes nonceN 0 nodes).map (fun rn => rn.id)) ∧
    (∀ e' ∈ showQueryGraph_remapEdges (mapGet (showQueryGraph_nodeIdPairs nonceN 0 nodes))
        nonceE 0 (edges.filter showQueryGraph_edgeFilter),
      ∃ e ∈ edges,
        e'.«from» = epMap (mapGet (showQueryGraph_nodeIdPairs nonceN 0 nodes)) e.«from» ∧
        e'.«to» = epMap (mapGet (showQueryGraph_nodeIdPairs nonceN 0 nodes)) e.«to») := by
  refine ⟨processedNodes_ids_nodup nonceN nodes 0, ?_, ?_, ?_, ?_⟩
  · rw [fetchFullKG_processedNodes_eq]
    exact processedNodes_ids_nodup nonceN nodes 0
  · intro v1 h1 v2 h2
    obtain ⟨j1, -, hv1⟩ := (mem_processedNodes_ids nonceN nodes 0 v1).mp h1
    obtain ⟨j2, -, hv2⟩ := (mem_processedNodes_ids nonce2 nodes2 0 v2).mp h2
    intro he
    have := freshNodeId_injOn nonceN nonce2 (0 + j1) (0 + j2) (by rw [← hv1, ← hv2, he])
    exact hcross (0 + j1) (0 + j2) this.2
  · intro s hs
    obtain ⟨v, hv⟩ := mapGet_nodeIdPairs_isSome nonceN nodes 0 s hs
    exact ⟨v, hv, mapGet_value_mem_ids nonceN nodes s v hv⟩
  · intro e' he'
    obtain ⟨e, hef, hfrom, hto, -⟩ := mem_remapEdges _ _ _ 0 e' he'
    exact ⟨e, (List.mem_filter.mp hef).1, hfrom, hto⟩

/-- C3 witness: two input nodes with the same entity id still get
distinct render ids. -/
theorem C3_ids_unique_fresh_mapped_witness :
    ((showQueryGraph_processedNodes (fun _ => "A") 0
        [⟨"a", none, none⟩, ⟨"a", none, none⟩]).map (fun rn => rn.id)).Nodup :=
  (C3_ids_unique_fresh_mapped (fun _ => "A") (fun _ => "B") (fun _ => "A")
    [⟨"a", none, none⟩, ⟨"a", none, none⟩] [] []
    (fun i j => by show "A" ≠ "B"; decide)).1

/-- A fresh node id never equals a string that does not start with n
(used to discharge the nonce-freshness hypothesis on concrete inputs). -/
theorem freshNodeId_ne_of_head (nonce : Nat → String) (i : Nat) (s : String)
    (hs : s.data.head? ≠ some 'n') : freshNodeId nonce i ≠ s := by
  intro h
  have hd := congrArg String.data h
  rw [freshNodeId_data] at hd
  rw [← hd] at hs
  simp at hs

/-- C2: in all three current-iteration processing paths the processed
edge list contains no edge whose endpoints are equal — assuming the
fresh node ids collide with no raw endpoint id occurring in the input
edges, as the Date.now/Math.random nonces guarantee — and every input
edge with equal endpoints is rejected by all three edge filters. -/
theorem C2_no_self_loops (nonceN nonceE : Nat → String) (nodes : List InNode)
    (edges : List InEdge)
    (hFresh : ∀ i s, (∃ e ∈ edges, e.«from» = some s ∨ e.«to» = some s) →
      freshNodeId nonceN i ≠ s) :
    (∀ e' ∈ showQueryGraph_remapEdges (mapGet (showQueryGraph_nodeIdPairs nonceN 0 nodes))
        nonceE 0 (edges.filter showQueryGraph_edgeFilter), e'.«from» ≠ e'.«to») ∧
    (∀ e' ∈ fetchFullKG_processedEdges (mapGet (fetchFullKG_nodeIdPairs nonceN 0 nodes))
        nonceE 0 (edges.filter fetchFullKG_edgeFilter), e'.«from» ≠ e'.«to») ∧
    (∀ e' ∈ renderEffect_processedEdges (mapGet (renderEffect_nodeIdPairs nonceN 0 nodes))
        nonceE 0 (edges.filter renderEffect_edgeFilter), e'.«from» ≠ e'.«to») ∧
    (∀ e ∈ edges, e.«from» = e.«to» →
      showQueryGraph_edgeFilter e = false ∧ fetchFullKG_edgeFilter e = false ∧
        renderEffect_edgeFilter e = false) := by
  have hmain : ∀ e' ∈ showQueryGraph_remapEdges
      (mapGet (showQueryGraph_nodeIdPairs nonceN 0 nodes)) nonceE 0
      (edges.filter showQueryGraph_edgeFilter), e'.«from» ≠ e'.«to» := by
    intro e' he'
    obtain ⟨e, hef, hfrom, hto, -⟩ := mem_remapEdges _ _ _ 0 e' he'
    obtain ⟨he, hfil⟩ := List.mem_filter.mp hef
    rw [showQueryGraph_edgeFilter_eq] at hfil
    have := epMap_ne_of_valid nonceN nodes edges hFresh e he hfil
    rw [hfrom, hto]
    exact this
  have hfc : edges.filter fetchFullKG_edgeFilter = edges.filter showQueryGraph_edgeFilter :=
    List.filter_congr fun e _ => by
      rw [fetchFullKG_edgeFilter_eq, showQueryGraph_edgeFilter_eq]
  have hrc : edges.filter renderEffect_edgeFilter = edges.filter showQueryGraph_edgeFilter :=
    List.filter_congr fun e _ => by
      rw [renderEffect_edgeFilter_eq, showQueryGraph_edgeFilter_eq]
  refine ⟨hmain, ?_, ?_, ?_⟩
  · rw [fetchFullKG_processedEdges_eq, fetchFullKG_nodeIdPairs_eq, hfc]
    exact hmain
  · rw [renderEffect_processedEdges_eq, renderEffect_nodeIdPairs_eq, hrc]
    exact hmain
  · intro e he heq
    have hbeq : (e.«from» == e.«to») = true := by simp [heq]
    refine ⟨?_, ?_, ?_⟩
    · rw [showQueryGraph_edgeFilter_eq, hbeq]
      simp
    · rw [fetchFullKG_edgeFilter_eq, hbeq]
      simp
    · rw [renderEffect_edgeFilter_eq, hbeq]
      simp

/-- C2 witness: the one concrete processed edge has distinct endpoints. -/
theorem C2_no_self_loops_witness :
    (⟨"edge_0_t", some "node_0_t", some "b", none⟩ : OutEdge).«from» ≠
      (⟨"edge_0_t", some "node_0_t", some "b", none⟩ : OutEdge).«to» :=
  (C2_no_self_loops (fun _ => "t") (fun _ => "t") [⟨"a", none, none⟩]
    [⟨some "a", some "b", none⟩]
    (by
      intro i s hs
      obtain ⟨e, he, h⟩ := hs
      rw [List.mem_singleton] at he
      subst he
      apply freshNodeId_ne_of_head
      rcases h with h | h
      · have : s = "a" := (Option.some.inj h).symm
        subst this
        decide
      · have : s = "b" := (Option.some.inj h).symm
        subst this
        decide)).1
    ⟨"edge_0_t", some "node_0_t", some "b", none⟩ (by decide)

/-- C1 counterexample: with one node a and one edge a to b, showQueryGraph
keeps the edge and emits it with the unmapped original endpoint id b,
which is no render-node id, so the processed payload violates
referential integrity instead of dropping the edge. -/
theorem C1_counterexample_dangling_kept :
    ∃ w ns es,
      showQueryGraph (fun _ => "t") (fun _ => "t")
          (some ⟨none, none, some ⟨some [⟨"a", none, none⟩],
            some [⟨some "a", some "b", none⟩]⟩⟩) = .success w ns es ∧
        ¬ renderIntegrity ns es := by
  refine ⟨false, [⟨"node_0_t", none, none⟩],
    [⟨"edge_0_t", some "node_0_t", some "b", none⟩], by decide, by decide⟩

/-- C1 (amended): when every endpoint of every input edge matches some
input node id, referential integrity holds for the processed payload on
both the per-query and the full-graph path; but an edge surviving the
filter whose to endpoint matches no node id is not dropped — it is
emitted with its original unmapped id. -/
theorem C1_amended_integrity_or_unmapped (nonceN nonceE : Nat → String)
    (nodes : List InNode) (edges : List InEdge) :
    ((∀ e ∈ edges, ∀ s, (e.«from» = some s ∨ e.«to» = some s) → ∃ n ∈ nodes, n.id = s) →
      renderIntegrity (showQueryGraph_processedNodes nonceN 0 nodes)
        (showQueryGraph_remapEdges (mapGet (showQueryGraph_nodeIdPairs nonceN 0 nodes))
          nonceE 0 (edges.filter showQueryGraph_edgeFilter)) ∧
      renderIntegrity (fetchFullKG_processedNodes nonceN 0 nodes)
        (fetchFullKG_processedEdges (mapGet (fetchFullKG_nodeIdPairs nonceN 0 nodes))
          nonceE 0 (edges.filter fetchFullKG_edgeFilter))) ∧
    (∀ s, (∃ e ∈ edges, showQueryGraph_edgeFilter e = true ∧ e.«to» = some s) →
      (∀ n ∈ nodes, n.id ≠ s) →
      ∃ e' ∈ showQueryGraph_remapEdges (mapGet (showQueryGraph_nodeIdPairs nonceN 0 nodes))
          nonceE 0 (edges.filter showQueryGraph_edgeFilter), e'.«to» = some s) := by
  have hfc : edges.filter fetchFullKG_edgeFilter = edges.filter showQueryGraph_edgeFilter :=
    List.filter_congr fun e _ => by
      rw [fetchFullKG_edgeFilter_eq, showQueryGraph_edgeFilter_eq]
  constructor
  · intro hIn
    constructor
    · intro e' he'
      exact remapEdges_integrity nonceN nonceE nodes edges hIn e' he'
    · rw [fetchFullKG_processedEdges_eq, fetchFullKG_nodeIdPairs_eq,
        fetchFullKG_processedNodes_eq, hfc]
      intro e' he'
      exact remapEdges_integrity nonceN nonceE nodes edges hIn e' he'
  · exact fun s hs hout => remapEdges_keeps_dangling nonceN nonceE nodes edges s hs hout

/-- C1 witness: with nodes a and b and the edge a to b, both endpoint
hypotheses hold and the processed payload satisfies referential
integrity. -/
theorem C1_amended_integrity_or_unmapped_witness :
    renderIntegrity
      (showQueryGraph_processedNodes (fun _ => "t") 0
        [⟨"a", none, none⟩, ⟨"b", none, none⟩])
      (showQueryGraph_remapEdges
        (mapGet (showQueryGraph_nodeIdPairs (fun _ => "t") 0
          [⟨"a", none, none⟩, ⟨"b", none, none⟩]))
        (fun _ => "t") 0
        ([⟨some "a", some "b", none⟩].filter showQueryGraph_edgeFilter)) :=
  ((C1_amended_integrity_or_unmapped (fun _ => "t") (fun _ => "t")
    [⟨"a", none, none⟩, ⟨"b", none, none⟩] [⟨some "a", some "b", none⟩]).1
    (by
      intro e he s hs
      rw [List.mem_singleton] at he
      subst he
      rcases hs with h | h
      · exact ⟨⟨"a", none, none⟩, by simp, (Option.some.inj h)⟩
      · exact ⟨⟨"b", none, none⟩, by simp, (Option.some.inj h)⟩)).1

/-- C6: a populated response and a top-level error are never both
surfaced: when the error field is truthy, formatResults returns the
query-error text built from error and detail and send surfaces the
connection error, both independent of the response field; when the
error field is falsy, the formatted output is the processed response
followed by a (possibly empty) suffix. -/
theorem C6_error_xor_response (d : ChatData) :
    (jsTruthy d.error = true →
      formatResults d = errorText d.error d.detail ∧
      (∀ r, formatResults { d with response := r } = formatResults d) ∧
      sendProcess d = .connectionError (jsOr d.error "") ∧
      (∀ r, sendProcess { d with response := r } = sendProcess d)) ∧
    (jsTruthy d.error = false →
      ∃ rest, formatResults d =
        processResponseText (jsOr d.response "No response available.") ++ rest) := by
  constructor
  · intro herr
    refine ⟨?_, ?_, ?_, ?_⟩
    · unfold formatResults
      rw [if_pos herr]
    · intro r
      simp only [formatResults, herr, if_true]
    · unfold sendProcess
      rw [if_pos herr]
    · intro r
      simp only [sendProcess, herr, if_true]
  · intro herr
    have hneg : ¬ (jsTruthy d.error = true) := by simp [herr]
    cases hkg : d.kg_data with
    | none =>
      refine ⟨"", ?_⟩
      unfold formatResults
      rw [if_neg hneg, hkg, String.append_empty]
    | some kg =>
      cases hgate : kgGate kg with
      | true =>
        refine ⟨kgSection kg, ?_⟩
        unfold formatResults
        rw [if_neg hneg, hkg]
        simp only [hgate, if_true]
      | false =>
        refine ⟨"", ?_⟩
        unfold formatResults
        rw [if_neg hneg, hkg, String.append_empty]
        simp only [hgate, Bool.false_eq_true, if_false]

/-- C6 witness. -/
theorem C6_error_xor_response_witness :
    formatResults ⟨some "boom", some "bad query", some "hi", "low", none⟩ =
        errorText (some "boom") (some "bad query") ∧
      ∃ rest, formatResults ⟨none, none, some "hi", "low", none⟩ =
        processResponseText (jsOr (some "hi") "No response available.") ++ rest :=
  ⟨((C6_error_xor_response ⟨some "boom", some "bad query", some "hi", "low", none⟩).1
      (by decide)).1,
    (C6_error_xor_response ⟨none, none, some "hi", "low", none⟩).2 (by decide)⟩

/-- C5 counterexample: a response with confidence low but nonempty
kg_data entities still gets the knowledge-graph sources section
appended to the displayed answer, so the confidence signal is not the
gate for the structured section. -/
theorem C5_counterexample_low_confidence_gets_section :
    c5LowConfidence.confidence = "low" ∧
      ("📚 Sources from Knowledge Graph:".data).IsInfix
        (formatResults c5LowConfidence).data := by
  constructor
  · rfl
  · decide

/-- C5 (amended): the gate for the sources section is kgGate — kg_data
with nonempty entities or relationships — not confidence: for an
error-free response the output is the processed prose with the section
appended exactly when kgGate holds, formatResults does not depend on
confidence at all, and confidence only selects the bot-message type
(results vs no-results) in send. -/
theorem C5_kg_gate_not_confidence (d : ChatData) (kg : KgData)
    (herr : jsTruthy d.error = false) (hkg : d.kg_data = some kg) :
    (kgGate kg = true →
      formatResults d =
        processResponseText (jsOr d.response "No response available.") ++ kgSection kg) ∧
    (kgGate kg = false →
      formatResults d = processResponseText (jsOr d.response "No response available.")) ∧
    (∀ c, formatResults { d with confidence := c } = formatResults d) ∧
    sendProcess d = .botMessage (formatResults d)
      (if d.confidence == "high" then "results" else "no-results") d.kg_data := by
  have hneg : ¬ (jsTruthy d.error = true) := by simp [herr]
  refine ⟨?_, ?_, ?_, ?_⟩
  · intro hgate
    unfold formatResults
    rw [if_neg hneg, hkg]
    simp only [hgate, if_true]
  · intro hgate
    unfold formatResults
    rw [if_neg hneg, hkg]
    simp only [hgate, Bool.false_eq_true, if_false]
  · intro c
    rfl
  · unfold sendProcess
    rw [if_neg hneg]

/-- C5 witness. -/
theorem C5_kg_gate_not_confidence_witness :
    formatResults c5LowConfidence =
      processResponseText (jsOr (some "hi") "No response available.") ++
        kgSection ⟨some [⟨"e1", "Ashwagandha", "herbs", some ["calming herb"]⟩], none, none⟩ :=
  (C5_kg_gate_not_confidence c5LowConfidence
    ⟨some [⟨"e1", "Ashwagandha", "herbs", some ["calming herb"]⟩], none, none⟩
    (by decide) rfl).1 (by decide)
